import Mathlib

/-!
Verification of the Glyph-Reader firmware core (gesture capture, geometric
preprocessing, template scoring, spell catalogue persistence, MQTT glue).

The definitions below are a shallow embedding of the C++ sources under
src/Firmware/src.  C++ `int` is modelled as `Int` (the reachable values are
far from the 32-bit boundaries), `uint32_t` timestamps as `Int`, and `float`
computations as exact real arithmetic; a `float` value assigned to an `int`
field is truncated toward zero, which `truncF` models.  Division of reals in
Lean is total with `x / 0 = 0`; all theorems below stay away from the
degenerate inputs where a C float division would produce NaN (the stated
hypotheses exclude them).
-/

open scoped Classical

set_option maxRecDepth 10000

namespace GlyphReader

/-- A trajectory point: struct Point of spell_patterns.h
(int x; int y; uint32_t timestamp). -/
structure Pt where
  x : Int
  y : Int
  t : Int
deriving DecidableEq

instance : Inhabited Pt := ⟨⟨0, 0, 0⟩⟩

/-- Truncation of a real toward zero, as the C conversion from float to int. -/
noncomputable def truncF (r : ℝ) : ℤ :=
  if 0 ≤ r then ⌊r⌋ else ⌈r⌉

/-- Euclidean distance between two points, as computed everywhere in the
firmware: dx = b.x - a.x; dy = b.y - a.y; sqrt(dx*dx + dy*dy). -/
noncomputable def segDist (a b : Pt) : ℝ :=
  let dx : ℝ := ((b.x : ℝ) - (a.x : ℝ))
  let dy : ℝ := ((b.y : ℝ) - (a.y : ℝ))
  Real.sqrt (dx * dx + dy * dy)

/-- Total path length of a trajectory: the totalLength / totalDistance loops
of spell_matching.cpp (resampleTrajectory) and cameraFunction.cpp
(readCameraData): the sum of distances of consecutive points. -/
noncomputable def pathLength : List Pt → ℝ
  | [] => 0
  | [_] => 0
  | a :: b :: rest => segDist a b + pathLength (b :: rest)

/-- The last point of the nonempty chain a :: l. -/
def lastPt (a : Pt) (l : List Pt) : Pt :=
  (a :: l).getLast (List.cons_ne_nil a l)

/-- normalizeTrajectory of spell_matching.cpp.  Returns the input unchanged
when it has fewer than 2 points; otherwise maps every point into the 0..1000
box using the bounding box (width/height clamped to at least 1) with C++
integer division (operands are nonnegative, so truncating and flooring
division agree), and makes timestamps relative to the first point. -/
def normalizeTrajectory (traj : List Pt) : List Pt :=
  if traj.length < 2 then traj
  else
    let h0 := traj.headI
    let minX := traj.foldl (fun m p => min m p.x) h0.x
    let maxX := traj.foldl (fun m p => max m p.x) h0.x
    let minY := traj.foldl (fun m p => min m p.y) h0.y
    let maxY := traj.foldl (fun m p => max m p.y) h0.y
    let width := max 1 (maxX - minX)
    let height := max 1 (maxY - minY)
    traj.map (fun p =>
      { x := (p.x - minX) * 1000 / width
      , y := (p.y - minY) * 1000 / height
      , t := p.t - h0.t })

/-- One interpolated point of resampleTrajectory: p.x = a.x + f * dx with
dx = b.x - a.x, assigned to the int fields of Point (truncation). -/
noncomputable def lerpPoint (a b : Pt) (f : ℝ) : Pt :=
  { x := truncF ((a.x : ℝ) + f * ((b.x : ℝ) - (a.x : ℝ)))
  , y := truncF ((a.y : ℝ) + f * ((b.y : ℝ) - (a.y : ℝ)))
  , t := truncF ((a.t : ℝ) + f * ((b.t : ℝ) - (a.t : ℝ))) }

/-- The inner while loop of resampleTrajectory: while the remaining carry
plus the remaining length sd of the current segment (from a to b) reaches
the target spacing s and fewer than numPoints points are emitted, emit the
interpolation at f = (s - carry) / sd, reset the carry and shrink the
segment.  Returns the emitted list and distanceSoFar + segDist as left by
the loop exit. -/
noncomputable def emitLoop (s : ℝ) (a b : Pt) (numPoints : ℕ)
    (carry sd : ℝ) (out : List Pt) : List Pt × ℝ :=
  if _h : s ≤ carry + sd ∧ out.length < numPoints then
    emitLoop s a b numPoints 0 ((1 - (s - carry) / sd) * sd)
      (out ++ [lerpPoint a b ((s - carry) / sd)])
  else (out, carry + sd)
termination_by numPoints - out.length
decreasing_by
  simp only [List.length_append, List.length_cons, List.length_nil]
  omega

/-- The outer for loop of resampleTrajectory: walk the segments (prev = a,
next = head of the remaining list), running the inner while loop on each,
while fewer than numPoints points are emitted. -/
noncomputable def resampleWalk (s : ℝ) (numPoints : ℕ) :
    List Pt → Pt → ℝ → List Pt → List Pt
  | [], _, _, out => out
  | b :: rest, a, carry, out =>
    if out.length < numPoints then
      resampleWalk s numPoints rest b
        (emitLoop s a b numPoints carry (segDist a b) out).2
        (emitLoop s a b numPoints carry (segDist a b) out).1
    else out

/-- resampleTrajectory of spell_matching.cpp.  Trajectories of fewer than 2
points are returned unchanged; otherwise the first point is kept, the
segments are walked emitting points every totalLength/(numPoints-1) of arc,
and one trailing traj.back() is appended if the walk came up short. -/
noncomputable def resampleTrajectory (traj : List Pt) (numPoints : ℕ) : List Pt :=
  if traj.length < 2 then traj
  else
    let res := resampleWalk (pathLength traj / ((numPoints : ℝ) - 1)) numPoints
      traj.tail traj.headI 0 [traj.headI]
    if res.length < numPoints then res ++ [traj.getLastI] else res

/-- MIN_TRAJECTORY_POINTS of spell_matching.h. -/
def MIN_TRAJECTORY_POINTS : Nat := 50

/-- MIN_BOUNDING_BOX_SIZE of cameraFunction.cpp. -/
def MIN_BOUNDING_BOX_SIZE : Int := 200

/-- MAX_TRAJECTORY_POINTS of cameraFunction.cpp. -/
def MAX_TRAJECTORY_POINTS : Nat := 1000

/-- POINT_JUMP_THRESHOLD of cameraFunction.cpp (sensor pixels), compared
against a float distance. -/
def POINT_JUMP_THRESHOLD : ℝ := 40

/-- hasMinimumMovement of cameraFunction.cpp: at least 2 points and a
bounding box of at least MIN_BOUNDING_BOX_SIZE in one dimension. -/
def hasMinimumMovement (trajectory : List Pt) : Bool :=
  if trajectory.length < 2 then false
  else
    let h0 := trajectory.headI
    let minX := trajectory.foldl (fun m p => min m p.x) h0.x
    let maxX := trajectory.foldl (fun m p => max m p.x) h0.x
    let minY := trajectory.foldl (fun m p => min m p.y) h0.y
    let maxY := trajectory.foldl (fun m p => max m p.y) h0.y
    decide (MIN_BOUNDING_BOX_SIZE ≤ maxX - minX) || decide (MIN_BOUNDING_BOX_SIZE ≤ maxY - minY)

/-- The user-visible outcome of the IR-loss processing of a recording
(readCameraData, branch currentState == RECORDING): the display shows
"Too Small", "No Match" (insufficient movement), "Too Short", the
custom-spell preview, or spell classification is attempted via matchSpell. -/
inductive RecordingOutcome where
  | tooSmall
  | noMatchMovement
  | tooShort
  | recordPreview
  | classifyAttempted
deriving DecidableEq

/-- The IR-loss gesture processing order of readCameraData
(cameraFunction.cpp): first the bounding-box check (Too Small), then the
total-movement check (at most 50 px of summed consecutive distances shows
No Match), then the minimum-point-count check (Too Short), then either the
custom-spell preview or classification. -/
noncomputable def processRecordingEnd (isRecordingCustomSpell : Bool)
    (traj : List Pt) : RecordingOutcome :=
  if hasMinimumMovement traj = false then .tooSmall
  else if 50 < pathLength traj then
    if traj.length < MIN_TRAJECTORY_POINTS then .tooShort
    else if isRecordingCustomSpell then .recordPreview
    else .classifyAttempted
  else .noMatchMovement

/-- The per-frame trajectory update of the RECORDING state of
readCameraData: a point farther than POINT_JUMP_THRESHOLD from the last
accepted point is an outlier and is dropped; otherwise the point is pushed
and the oldest point is evicted beyond MAX_TRAJECTORY_POINTS. -/
noncomputable def recordingPush (traj : List Pt) (p : Pt) : List Pt :=
  if traj ≠ [] ∧ POINT_JUMP_THRESHOLD < segDist traj.getLastI p then traj
  else
    if MAX_TRAJECTORY_POINTS < (traj ++ [p]).length then (traj ++ [p]).tail
    else traj ++ [p]

/-- X decode of one IR blob record: x = ((ss and 0x30) shl 4) or xx. -/
def decodeBlobX (ss xx : Nat) : Nat := ((ss &&& 0x30) <<< 4) ||| xx

/-- Y decode of one IR blob record: y = ((ss and 0xC0) shl 2) or yy. -/
def decodeBlobY (ss yy : Nat) : Nat := ((ss &&& 0xC0) <<< 2) ||| yy

/-- The decoded point of blob i of a 16-byte frame: the record starts at
offset 1 + i * 3 (header byte first), bytes xx, yy, ss. -/
def blobPoint (data : List Nat) (i : Nat) : Nat × Nat :=
  (decodeBlobX (data.getD (1 + i * 3 + 2) 0) (data.getD (1 + i * 3) 0),
   decodeBlobY (data.getD (1 + i * 3 + 2) 0) (data.getD (1 + i * 3 + 1) 0))

/-- A blob is valid exactly when neither decoded coordinate is 0x3FF. -/
def blobValid (data : List Nat) (i : Nat) : Bool :=
  decide ((blobPoint data i).1 ≠ 0x3FF) && decide ((blobPoint data i).2 ≠ 0x3FF)

/-- The blob scan loop of readCameraData: for i = 0..3, if the record fits
in the 16-byte frame and the blob is valid, use it and stop. -/
def parseBlobs (data : List Nat) (i : Nat) : Option (Nat × Nat) :=
  if i < 4 then
    if 1 + i * 3 + 2 < 16 then
      if blobValid data i then some (blobPoint data i) else parseBlobs data (i + 1)
    else parseBlobs data (i + 1)
  else none
termination_by 4 - i

/-- First valid IR point of a frame, if any: the blob scan from blob 0. -/
def parseFrame (data : List Nat) : Option (Nat × Nat) := parseBlobs data 0

/-- Frame acquisition of readCameraData (cameraFunction.cpp, steps 1-2):
an I2C error on the register write, or a read of fewer than 16 bytes,
returns before the state machine runs (the state is unchanged); otherwise
the parsed frame and the current state are handed to the gesture state
machine, abstracted here as the continuation. -/
def readCameraData {St : Type} (machine : Option (Nat × Nat) → St → St)
    (busError : Bool) (bytesRead : Nat) (data : List Nat) (st : St) : St :=
  if busError = true then st
  else if bytesRead ≠ 16 then st
  else machine (parseFrame data) st

/-- A 16-byte example frame: header, then blob records (xx yy ss); blob 0
decodes to x = 0x3FF (invalid), blob 1 decodes to (16, 32) (valid). -/
def frameExample : List Nat :=
  [0, 255, 255, 240, 16, 32, 0, 255, 255, 240, 255, 255, 240, 0, 0, 0]

/-- C atan2(y, x): the angle of the point (x, y), in (-pi, pi]. -/
noncomputable def atan2 (y x : ℝ) : ℝ := Complex.arg ⟨x, y⟩

/-- The per-segment direction angles of a trajectory, as computed in
calculateDirectionSimilarity: atan2 of the deltas of consecutive points. -/
noncomputable def dirAngles (l : List Pt) : List ℝ :=
  (l.zip l.tail).map (fun pr =>
    atan2 ((pr.2.y : ℝ) - (pr.1.y : ℝ)) ((pr.2.x : ℝ) - (pr.1.x : ℝ)))

/-- The wrapped angle difference of calculateDirectionSimilarity: the
absolute difference, replaced by 2 pi minus it when above pi. -/
noncomputable def angleDiff (u v : ℝ) : ℝ :=
  if Real.pi < |u - v| then 2 * Real.pi - |u - v| else |u - v|

/-- calculateDirectionSimilarity of spell_matching.cpp: 0 when the lengths
differ or there are fewer than 2 points; otherwise 1 minus the average
wrapped angle difference over the numSegments = length - 1 segments,
divided by pi, clamped to be nonnegative. -/
noncomputable def calculateDirectionSimilarity (t1 t2 : List Pt) : ℝ :=
  if t1.length ≠ t2.length ∨ t1.length < 2 then 0
  else
    max 0 (1 -
      ((((dirAngles t1).zip (dirAngles t2)).map (fun pr => angleDiff pr.1 pr.2)).sum
        / ((t1.length : ℝ) - 1)) / Real.pi)

/-- calculateSimilarity of spell_matching.cpp: 0 when the lengths differ or
the inputs are empty; otherwise 0.6 times the position similarity (1 minus
the average pointwise distance over 1414) plus 0.4 times the direction
similarity, clamped to be nonnegative. -/
noncomputable def calculateSimilarity (t1 t2 : List Pt) : ℝ :=
  if t1.length ≠ t2.length ∨ t1.length = 0 then 0
  else
    max 0 ((1 - (((t1.zip t2).map (fun pr => segDist pr.1 pr.2)).sum
        / (t1.length : ℝ)) / 1414) * 0.6
      + calculateDirectionSimilarity t1 t2 * 0.4)

/-- struct SpellPattern of spell_patterns.h: name, point pattern, optional
custom image filename (empty string when absent). -/
structure SpellPattern where
  name : String
  pattern : List Pt
  customImageFilename : String
deriving DecidableEq

/-- One entry of the overlay's modify array (spells.json): absent JSON
fields are none. -/
structure ModEntry where
  builtInName : Option String
  customName : Option String
  imageFile : Option String
  pattern : Option (List (Int × Int))
deriving DecidableEq

/-- One entry of the overlay's custom array (spells.json); an absent
pattern parses as the empty list. -/
structure CustomEntry where
  name : Option String
  imageFile : Option String
  pattern : List (Int × Int)
deriving DecidableEq

/-- The parsed overlay document: the modify and custom arrays, each absent
when not a JSON array. -/
structure OverlayDoc where
  modifyEntries : Option (List ModEntry)
  customEntries : Option (List CustomEntry)
deriving DecidableEq

/-- Overlay pattern points as read by loadCustomSpells: x and y from the
JSON (defaulted to 0 by the parser), timestamps auto-generated as
pointIndex * 100. -/
def patternPoints (pts : List (Int × Int)) : List Pt :=
  pts.enum.map (fun pr => ⟨pr.2.1, pr.2.2, (pr.1 : Int) * 100⟩)

/-- strcasecmp(a, b) == 0 as used for spell name matching (ASCII case
folding). -/
def lowerEq (a b : String) : Bool :=
  decide (a.toList.map Char.toLower = b.toList.map Char.toLower)

/-- Application of one modify entry to a matching catalogue spell
(loadCustomSpells): optional rename, optional image file, and a supplied
non-empty pattern replaces the stored pattern with the raw overlay points
(no re-normalization and no re-resampling happens in the source). -/
def applyModToSpell (m : ModEntry) (sp : SpellPattern) : SpellPattern :=
  let s1 := match m.customName with
    | some cn => { sp with name := cn }
    | none => sp
  let s2 := match m.imageFile with
    | some f => { s1 with customImageFilename := f }
    | none => s1
  match m.pattern with
  | some pts => if 0 < pts.length then { s2 with pattern := patternPoints pts } else s2
  | none => s2

/-- The inner catalogue scan of the modify loop: the first spell matching
builtInName case-insensitively is modified, the rest untouched (break). -/
def modifyFirstMatch (m : ModEntry) (bn : String) :
    List SpellPattern → List SpellPattern
  | [] => []
  | sp :: rest =>
    if lowerEq sp.name bn then applyModToSpell m sp :: rest
    else sp :: modifyFirstMatch m bn rest

/-- The modify phase of loadCustomSpells: entries without builtInName are
skipped. -/
def applyModifies (cat : List SpellPattern) (mods : List ModEntry) :
    List SpellPattern :=
  mods.foldl (fun c m =>
    match m.builtInName with
    | none => c
    | some bn => modifyFirstMatch m bn c) cat

/-- The custom phase of loadCustomSpells: nameless entries are skipped,
entries with a non-empty pattern are appended with the raw overlay points
(again, no normalization and no resampling in the source). -/
def applyCustoms (cat : List SpellPattern) (cs : List CustomEntry) :
    List SpellPattern :=
  cs.foldl (fun c ce =>
    match ce.name with
    | none => c
    | some nm =>
      if 0 < ce.pattern.length then
        c ++ [⟨nm, patternPoints ce.pattern, ce.imageFile.getD ""⟩]
      else c) cat

/-- loadCustomSpells of sdFunctions.cpp, past the SD/parse error paths
(which leave the catalogue unchanged): the modify phase followed by the
custom phase. -/
def loadCustomSpells (cat : List SpellPattern) (doc : OverlayDoc) :
    List SpellPattern :=
  applyCustoms (applyModifies cat (doc.modifyEntries.getD []))
    (doc.customEntries.getD [])

/-- A pattern point placed on a circle, as the trig-generated points of
initSpellPatterns: the float center/radius/angle computation assigned to
the int fields of Point. -/
noncomputable def circlePt (cx cy r ang : ℝ) (ts : Int) : Pt :=
  ⟨truncF (cx + r * Real.cos ang), truncF (cy + r * Real.sin ang), ts⟩

/-- Degrees to radians as written in initSpellPatterns: deg * M_PI / 180. -/
noncomputable def degAngle (d : ℝ) : ℝ := d * Real.pi / 180

/-- The 13 built-in spell patterns of initSpellPatterns
(spell_patterns.cpp), raw, before normalization and resampling. -/
noncomputable def builtInRawSpells : List SpellPattern :=
  [ ⟨"Unlock",
      ((List.range 9).map (fun (i : Nat) =>
        circlePt 512 384 200 (((i : ℝ) * Real.pi * 2) / 8 - Real.pi / 2) ((i : Int) * 100)))
      ++ [⟨512, 184, 900⟩, ⟨512, 384, 1000⟩, ⟨512, 584, 1100⟩, ⟨512, 684, 1200⟩], ""⟩
  , ⟨"Terminate",
      [⟨200, 200, 0⟩, ⟨512, 200, 0⟩, ⟨824, 200, 0⟩, ⟨612, 342, 0⟩, ⟨400, 484, 0⟩,
       ⟨200, 584, 0⟩, ⟨512, 602, 0⟩, ⟨824, 620, 0⟩], ""⟩
  , ⟨"Ignite",
      [⟨200, 600, 0⟩, ⟨356, 400, 0⟩, ⟨512, 200, 0⟩, ⟨668, 400, 0⟩, ⟨824, 600, 0⟩,
       ⟨512, 600, 0⟩, ⟨200, 600, 0⟩], ""⟩
  , ⟨"Gust",
      [⟨200, 200, 0⟩, ⟨356, 350, 0⟩, ⟨512, 500, 0⟩, ⟨668, 350, 0⟩, ⟨824, 200, 0⟩], ""⟩
  , ⟨"Lower",
      [circlePt 400 400 200 (degAngle 90) 0, circlePt 400 400 200 (degAngle 60) 100,
       circlePt 400 400 200 (degAngle 30) 200, circlePt 400 400 200 (degAngle 0) 300,
       circlePt 400 400 200 (degAngle 330) 400, circlePt 400 400 200 (degAngle 300) 500,
       circlePt 400 400 200 (degAngle 270) 600, circlePt 400 400 200 (degAngle 240) 700,
       ⟨(circlePt 400 400 200 (degAngle 150) 0).x, (circlePt 400 400 200 (degAngle 150) 0).y + 150, 900⟩,
       ⟨(circlePt 400 400 200 (degAngle 150) 0).x, (circlePt 400 400 200 (degAngle 150) 0).y + 300, 1000⟩], ""⟩
  , ⟨"Raise",
      [circlePt 400 400 200 (degAngle 270) 0, circlePt 400 400 200 (degAngle 300) 100,
       circlePt 400 400 200 (degAngle 330) 200, circlePt 400 400 200 (degAngle 0) 300,
       circlePt 400 400 200 (degAngle 30) 400, circlePt 400 400 200 (degAngle 60) 500,
       circlePt 400 400 200 (degAngle 90) 600, circlePt 400 400 200 (degAngle 120) 700,
       circlePt 400 400 200 (degAngle 150) 800,
       ⟨(circlePt 400 400 200 (degAngle 240) 0).x, (circlePt 400 400 200 (degAngle 240) 0).y - 150, 800⟩,
       ⟨(circlePt 400 400 200 (degAngle 240) 0).x, (circlePt 400 400 200 (degAngle 240) 0).y - 300, 900⟩], ""⟩
  , ⟨"Move",
      [⟨650, 600, 0⟩, ⟨650, 400, 0⟩, ⟨650, 200, 0⟩, ⟨425, 300, 0⟩, ⟨200, 400, 0⟩,
       ⟨512, 400, 0⟩, ⟨824, 400, 0⟩], ""⟩
  , ⟨"Levitate",
      ((List.range 7).map (fun (i : Nat) =>
        circlePt 512 300 200 (degAngle (180 - (i : ℝ) * 30)) ((i : Int) * 100)))
      ++ [⟨712, 650, 700⟩], ""⟩
  , ⟨"Silence",
      ((List.range 7).map (fun (i : Nat) =>
        circlePt 512 300 200 (degAngle ((i : ℝ) * 30)) ((i : Int) * 100)))
      ++ [⟨312, 650, 700⟩], ""⟩
  , ⟨"Halt",
      [⟨200, 600, 0⟩, ⟨275, 400, 0⟩, ⟨350, 200, 0⟩, ⟨431, 325, 0⟩, ⟨512, 450, 0⟩,
       ⟨593, 325, 0⟩, ⟨674, 200, 0⟩, ⟨749, 400, 0⟩, ⟨824, 600, 0⟩], ""⟩
  , ⟨"Resume",
      [⟨200, 200, 0⟩, ⟨275, 400, 0⟩, ⟨350, 600, 0⟩, ⟨431, 475, 0⟩, ⟨512, 350, 0⟩,
       ⟨593, 475, 0⟩, ⟨674, 600, 0⟩, ⟨749, 400, 0⟩, ⟨824, 200, 0⟩], ""⟩
  , ⟨"Illuminate",
      [⟨320, 775, 0⟩, ⟨512, 186, 0⟩, ⟨703, 775, 0⟩, ⟨202, 441, 0⟩, ⟨821, 441, 0⟩,
       ⟨320, 775, 0⟩], ""⟩
  , ⟨"Dark",
      [⟨824, 200, 0⟩, ⟨488, 484, 0⟩, ⟨152, 768, 0⟩, ⟨152, 484, 0⟩, ⟨152, 200, 0⟩,
       ⟨488, 484, 0⟩, ⟨824, 768, 0⟩], ""⟩ ]

/-- Modelled from the spec: the RESAMPLE_POINTS constant is not defined
under src (it comes from the build flags); the spec fixes a single pattern
length N of 40 or 50, and the headers of spell_patterns.h and
spell_matching.h both document 40 points, matching matchSpell's hard-coded
resample target of 40.  The value 40 is used here. -/
def RESAMPLE_POINTS : Nat := 40

/-- initSpellPatterns of spell_patterns.cpp: every built-in raw pattern is
normalized and then resampled to RESAMPLE_POINTS points. -/
noncomputable def initSpellPatterns : List SpellPattern :=
  builtInRawSpells.map (fun sp =>
    { sp with pattern := resampleTrajectory (normalizeTrajectory sp.pattern) RESAMPLE_POINTS })

/-- The catalogue as built at startup: built-ins, then the overlay merged
by loadCustomSpells. -/
noncomputable def spellCatalogue (doc : OverlayDoc) : List SpellPattern :=
  loadCustomSpells initSpellPatterns doc

/-- The bounds-safety of the scoring loop of matchSpell
(spell_matching.cpp): for every catalogue template the loop reads
spell.pattern[i] for every i below the length of the user's resampled
trajectory (resampleTrajectory(normalizeTrajectory(traj), 40)), with no
check of the template's own pattern length; safety means every such index
is within the template's pattern. -/
def scoringReadsInBounds (cat : List SpellPattern) (traj : List Pt) : Prop :=
  ∀ sp ∈ cat, ∀ i < (resampleTrajectory (normalizeTrajectory traj) 40).length,
    i < sp.pattern.length

/-- An overlay whose custom array holds one entry with a 2-point raw
pattern reaching far outside the 0..1000 box. -/
def overlayShortPattern : OverlayDoc :=
  ⟨none, some [⟨some "Blob", none, [(0, 0), (5000, 7000)]⟩]⟩

/-- A 50-point straight-line user trajectory (10 px per step). -/
def exTraj : List Pt := (List.range 50).map (fun i => ⟨10 * (i : Int), 0, (i : Int)⟩)

/-- C isspace on the characters atoi skips. -/
def isSpaceChar (c : Char) : Bool :=
  c == ' ' || c == '\t' || c == '\n' || c == '\x0b' || c == '\x0c' || c == '\r'

/-- The digit-accumulation loop of C atoi. -/
def atoiDigits : List Char → Int → Int
  | [], acc => acc
  | c :: rest, acc =>
    if c.isDigit then atoiDigits rest (acc * 10 + ((c.toNat : Int) - 48)) else acc

/-- C atoi: skip whitespace, optional sign, then leading digits (0 when
there are none). -/
def atoiModel (s : String) : Int :=
  match s.toList.dropWhile isSpaceChar with
  | '-' :: rest => - atoiDigits rest 0
  | '+' :: rest => atoiDigits rest 0
  | l => atoiDigits l 0

/-- strncmp(name, "Custom ", 7) == 0: the first seven characters are
exactly the reserved prefix of user-recorded spell names. -/
def startsWithCustom (n : String) : Bool :=
  decide (n.toList.take 7 = "Custom ".toList)

/-- The auto-naming scan of saveRecordedSpell (customSpellFunctions.cpp):
the largest atoi value after the 7-character prefix over the entries whose
name starts with "Custom ", starting from 0. -/
def maxCustomNum (names : List (Option String)) : Int :=
  names.foldl (fun acc nm =>
    match nm with
    | none => acc
    | some n =>
      if startsWithCustom n then
        (if acc < atoiModel (n.drop 7) then atoiModel (n.drop 7) else acc)
      else acc) 0

/-- The custom-array update of saveRecordedSpell: the new entry is named
"Custom " followed by maxCustomNum + 1 and appended with the recorded
pattern's x, y coordinates (timestamps are not saved). -/
def saveRecordedSpellCustoms (existing : List CustomEntry) (recorded : List Pt) :
    List CustomEntry × String :=
  (existing ++ [⟨some ("Custom " ++ toString (maxCustomNum (existing.map (fun e => e.name)) + 1)),
      none, recorded.map (fun p => (p.x, p.y))⟩],
   "Custom " ++ toString (maxCustomNum (existing.map (fun e => e.name)) + 1))

/-- The numbers carried by the existing custom entries whose names start
with "Custom ", in order. -/
def customNumbers (entries : List CustomEntry) : List Int :=
  entries.filterMap (fun e => e.name.bind (fun n =>
    if startsWithCustom n then some (atoiModel (n.drop 7)) else none))

/-- The uint32 modulus. -/
def U32MOD : Nat := 4294967296

/-- uint32 subtraction now - last as used for elapsed-time checks. -/
def u32sub (a b : Nat) : Nat := (a % U32MOD + U32MOD - b % U32MOD) % U32MOD

/-- MQTT_BACKOFF_MAX of wifiFunctions.cpp: one hour in milliseconds. -/
def MQTT_BACKOFF_MAX : Nat := 3600000

/-- The module-level MQTT connection state of wifiFunctions.cpp:
lastMqttReconnect, mqttBackoffInterval, mqttWasConnected. -/
structure MqttState where
  lastReconnect : Nat
  backoffInterval : Nat
  wasConnected : Bool
deriving DecidableEq

/-- The environment one reconnectMQTT call observes: the configured host
length, the client's connected state, the WiFi state, the clock, and
whether a connect attempt would succeed. -/
structure MqttInput where
  hostLen : Nat
  connected : Bool
  wifiConnected : Bool
  now : Nat
  connectOk : Bool
deriving DecidableEq

/-- The boot values of the MQTT globals: interval 5000 ms, never
connected. -/
def mqttInitialState : MqttState := ⟨0, 5000, false⟩

/-- reconnectMQTT of wifiFunctions.cpp: skip when no host is configured;
when connected, reset the backoff on the first observation; otherwise, with
WiFi up and the backoff interval elapsed, attempt a connection: success
resets the interval to 5000 ms, failure doubles it capped at one hour. -/
def reconnectMQTT (st : MqttState) (inp : MqttInput) : MqttState :=
  if inp.hostLen = 0 then st
  else if inp.connected then
    (if st.wasConnected then st
     else { st with wasConnected := true, backoffInterval := 5000 })
  else if inp.wifiConnected then
    (if st.backoffInterval ≤ u32sub inp.now st.lastReconnect then
      (if inp.connectOk then
        { lastReconnect := inp.now % U32MOD, backoffInterval := 5000, wasConnected := true }
      else
        { lastReconnect := inp.now % U32MOD,
          backoffInterval := min (st.backoffInterval * 2 % U32MOD) MQTT_BACKOFF_MAX,
          wasConnected := st.wasConnected })
     else st)
  else st

/-- A due, failing reconnect attempt: host configured, client not
connected, WiFi up, the interval elapsed, the attempt fails. -/
def dueFailedAttempt (st : MqttState) (inp : MqttInput) : Prop :=
  inp.hostLen ≠ 0 ∧ inp.connected = false ∧ inp.wifiConnected = true ∧
  st.backoffInterval ≤ u32sub inp.now st.lastReconnect ∧ inp.connectOk = false

/-- k consecutive failing due attempts from a state. -/
inductive ConsecutiveFailures : MqttState → List MqttInput → Prop where
  | nil (st : MqttState) : ConsecutiveFailures st []
  | cons (st : MqttState) (inp : MqttInput) (rest : List MqttInput) :
      dueFailedAttempt st inp →
      ConsecutiveFailures (reconnectMQTT st inp) rest →
      ConsecutiveFailures st (inp :: rest)

/-- A sequence of reconnectMQTT calls. -/
def runMQTT (st : MqttState) (inputs : List MqttInput) : MqttState :=
  inputs.foldl reconnectMQTT st

/-- publishSpell of wifiFunctions.cpp, with the MQTT client's outgoing
publish stream modelled as a list of (topic, payload) pairs: when
connected the raw spell name is published to the configured topic,
otherwise nothing is published, nothing is queued and nothing else
changes (the function touches no other state). -/
def publishSpell (connected : Bool) (topic spellName : String)
    (outbox : List (String × String)) : List (String × String) :=
  if connected then outbox ++ [(topic, spellName)] else outbox

theorem truncF_intCast (z : ℤ) : truncF (z : ℝ) = z := by
  unfold truncF
  split
  · exact Int.floor_intCast z
  · exact Int.ceil_intCast z

theorem segDist_nonneg (a b : Pt) : 0 ≤ segDist a b := by
  unfold segDist
  exact Real.sqrt_nonneg _

theorem segDist_self (a : Pt) : segDist a a = 0 := by
  simp [segDist]

theorem segDist_eq_zero_iff (a b : Pt) :
    segDist a b = 0 ↔ b.x = a.x ∧ b.y = a.y := by
  unfold segDist
  constructor
  · intro h
    have hsum : ((b.x : ℝ) - a.x) * ((b.x : ℝ) - a.x) +
        ((b.y : ℝ) - a.y) * ((b.y : ℝ) - a.y) = 0 := by
      have h0 : (0:ℝ) ≤ ((b.x : ℝ) - a.x) * ((b.x : ℝ) - a.x) +
          ((b.y : ℝ) - a.y) * ((b.y : ℝ) - a.y) := by
        nlinarith [mul_self_nonneg ((b.x : ℝ) - a.x), mul_self_nonneg ((b.y : ℝ) - a.y)]
      exact (Real.sqrt_eq_zero h0).mp h
    have hx : ((b.x : ℝ) - a.x) = 0 := by nlinarith [sq_nonneg ((b.x : ℝ) - a.x), sq_nonneg ((b.y : ℝ) - a.y)]
    have hy : ((b.y : ℝ) - a.y) = 0 := by nlinarith [sq_nonneg ((b.x : ℝ) - a.x), sq_nonneg ((b.y : ℝ) - a.y)]
    constructor
    · exact_mod_cast sub_eq_zero.mp hx
    · exact_mod_cast sub_eq_zero.mp hy
  · rintro ⟨hx, hy⟩
    simp [hx, hy]

theorem pathLength_nonneg (l : List Pt) : 0 ≤ pathLength l := by
  induction l with
  | nil => simp [pathLength]
  | cons a rest ih =>
    cases rest with
    | nil => simp [pathLength]
    | cons b r =>
      have h := segDist_nonneg a b
      simp only [pathLength]
      have : 0 ≤ pathLength (b :: r) := ih
      linarith

theorem pathLength_cons_cons (a b : Pt) (r : List Pt) :
    pathLength (a :: b :: r) = segDist a b + pathLength (b :: r) := rfl

theorem lastPt_nil (a : Pt) : lastPt a [] = a := rfl

theorem lastPt_cons (a b : Pt) (r : List Pt) : lastPt a (b :: r) = lastPt b r :=
  List.getLast_cons (List.cons_ne_nil b r)

/-- If the whole chain from a point onwards has zero length, the last point
of the chain has the same coordinates as the first. -/
theorem pathLength_zero_lastPt (a : Pt) (l : List Pt) (h : pathLength (a :: l) = 0) :
    (lastPt a l).x = a.x ∧ (lastPt a l).y = a.y := by
  induction l generalizing a with
  | nil => simp [lastPt_nil]
  | cons b r ih =>
    rw [pathLength_cons_cons] at h
    have h1 : segDist a b = 0 := by
      have := segDist_nonneg a b
      have := pathLength_nonneg (b :: r)
      linarith
    have h2 : pathLength (b :: r) = 0 := by
      have := segDist_nonneg a b
      have := pathLength_nonneg (b :: r)
      linarith
    obtain ⟨hbx, hby⟩ := (segDist_eq_zero_iff a b).mp h1
    rw [lastPt_cons]
    obtain ⟨ihx, ihy⟩ := ih b h2
    exact ⟨by rw [ihx, hbx], by rw [ihy, hby]⟩

theorem lerpPoint_one (a b : Pt) : lerpPoint a b 1 = b := by
  unfold lerpPoint
  have hx : (a.x : ℝ) + 1 * ((b.x : ℝ) - (a.x : ℝ)) = ((b.x : ℝ)) := by ring
  have hy : (a.y : ℝ) + 1 * ((b.y : ℝ) - (a.y : ℝ)) = ((b.y : ℝ)) := by ring
  have ht : (a.t : ℝ) + 1 * ((b.t : ℝ) - (a.t : ℝ)) = ((b.t : ℝ)) := by ring
  rw [hx, hy, ht, truncF_intCast, truncF_intCast, truncF_intCast]

/-- Full behavioural description of the inner resampling loop: the output
extends the input, its length stays between out.length and numPoints, arc
length is conserved (each emission consumes exactly s of arc), the leftover
is nonnegative, the loop exits either full or with leftover below s, and if
the loop fills the output exactly using up all remaining arc, the last
emitted point is exactly the segment endpoint b. -/
theorem emitLoop_spec (s : ℝ) (a b : Pt) (N : ℕ) :
    ∀ (k : ℕ) (carry sd : ℝ) (out : List Pt),
    k = N - out.length →
    0 < s → 0 ≤ carry → carry < s → 0 ≤ sd → out.length ≤ N →
    (∃ ems, (emitLoop s a b N carry sd out).1 = out ++ ems) ∧
    out.length ≤ (emitLoop s a b N carry sd out).1.length ∧
    (emitLoop s a b N carry sd out).1.length ≤ N ∧
    ((emitLoop s a b N carry sd out).1.length : ℝ) * s + (emitLoop s a b N carry sd out).2
      = (out.length : ℝ) * s + carry + sd ∧
    0 ≤ (emitLoop s a b N carry sd out).2 ∧
    ((emitLoop s a b N carry sd out).1.length = N ∨ (emitLoop s a b N carry sd out).2 < s) ∧
    ((emitLoop s a b N carry sd out).1.length = N → out.length < N →
      (emitLoop s a b N carry sd out).2 = 0 →
      (emitLoop s a b N carry sd out).1.getLast? = some b) := by
  intro k
  induction k with
  | zero =>
    intro carry sd out hk hs hc0 hcs hsd hlen
    have hfull : out.length = N := by omega
    rw [emitLoop, dif_neg (by push_neg; intro hle; omega)]
    refine ⟨⟨[], by simp⟩, le_refl _, by simpa using hlen, by ring,
      by show (0:ℝ) ≤ carry + sd; linarith, ?_, ?_⟩
    · left; simpa using hfull
    · intro _ hlt _; omega
  | succ k ih =>
    intro carry sd out hk hs hc0 hcs hsd hlen
    have hltN : out.length < N := by omega
    by_cases hge : s ≤ carry + sd
    · -- loop body executes
      have hsdpos : 0 < sd := by linarith
      have hfle : (s - carry) / sd ≤ 1 := by
        rw [div_le_one hsdpos]; linarith
      have hf0 : 0 ≤ (s - carry) / sd := by
        apply div_nonneg <;> linarith
      have hmul : ((s - carry) / sd) * sd = s - carry := by
        field_simp
      have hsd' : 0 ≤ (1 - (s - carry) / sd) * sd := by
        apply mul_nonneg <;> linarith
      rw [emitLoop, dif_pos ⟨hge, hltN⟩]
      have hlen' : (out ++ [lerpPoint a b ((s - carry) / sd)]).length = out.length + 1 := by
        simp
    -- apply the induction hypothesis to the recursive call
      obtain ⟨⟨ems, hems⟩, hmono, hub, hcons, hnn, hexit, hlast⟩ :=
        ih 0 ((1 - (s - carry) / sd) * sd) (out ++ [lerpPoint a b ((s - carry) / sd)])
          (by omega) hs (le_refl 0) hs hsd' (by omega)
      refine ⟨⟨lerpPoint a b ((s - carry) / sd) :: ems, by rw [hems]; simp⟩, ?_, hub, ?_, hnn, hexit, ?_⟩
      · rw [hlen'] at hmono; omega
      · rw [hcons, hlen']
        push_cast
        nlinarith [hmul]
      · intro hN _ h0
        by_cases hlt' : (out ++ [lerpPoint a b ((s - carry) / sd)]).length < N
        · exact hlast hN (by omega) h0
        · -- the appended point filled the output; the recursive call exits at once
          have hfull' : (out ++ [lerpPoint a b ((s - carry) / sd)]).length = N := by
            rw [hlen'] at hlt' ⊢; omega
          rw [emitLoop, dif_neg (by push_neg; intro _; omega)] at hN h0 ⊢
          have hzero : (1 - (s - carry) / sd) * sd = 0 := by
            simpa using h0
          have hfone : (s - carry) / sd = 1 := by
            rcases mul_eq_zero.mp hzero with h1 | h2
            · linarith
            · exact absurd h2 (by linarith)
          simp only [hfone, lerpPoint_one]
          simp
    · -- loop condition fails immediately
      rw [emitLoop, dif_neg (by push_neg; intro hle; exact absurd hle hge)]
      refine ⟨⟨[], by simp⟩, le_refl _, hlen, by ring,
        by show (0:ℝ) ≤ carry + sd; linarith, ?_, ?_⟩
      · right; show carry + sd < s; exact lt_of_not_ge hge
      · intro hN hlt _
        exact absurd hN (by simp; omega)

theorem resampleWalk_of_full (s : ℝ) (N : ℕ) (pts : List Pt) (a : Pt) (carry : ℝ)
    (out : List Pt) (h : ¬ out.length < N) :
    resampleWalk s N pts a carry out = out := by
  cases pts with
  | nil => rfl
  | cons b rest => simp only [resampleWalk, if_neg h]

/-- Behavioural description of the resampling walk: when the remaining arc
budget is exactly what is needed to fill the output to numPoints (at spacing
s, with the carry), the walk returns exactly numPoints points extending the
input, and the last of them has the coordinates of the last trajectory
point. -/
theorem resampleWalk_spec (s : ℝ) (N : ℕ) :
    ∀ (pts : List Pt) (a : Pt) (carry : ℝ) (out : List Pt),
    0 < s → 0 ≤ carry → carry < s → out ≠ [] → out.length ≤ N →
    (out.length : ℝ) * s + carry + pathLength (a :: pts) = (N : ℝ) * s →
    (resampleWalk s N pts a carry out).length = N ∧
    (∃ ems, resampleWalk s N pts a carry out = out ++ ems) ∧
    (out.length < N →
      ∃ p, (resampleWalk s N pts a carry out).getLast? = some p ∧
        p.x = (lastPt a pts).x ∧ p.y = (lastPt a pts).y) := by
  intro pts
  induction pts with
  | nil =>
    intro a carry out hs hc0 hcs hne hlen hpot
    have hPL : pathLength [a] = 0 := rfl
    rw [hPL] at hpot
    have hfull : out.length = N := by
      by_contra hnefull
      have hlt : out.length < N := lt_of_le_of_ne hlen hnefull
      have h1 : ((out.length : ℝ) + 1) ≤ (N : ℝ) := by exact_mod_cast hlt
      nlinarith
    refine ⟨by simpa [resampleWalk] using hfull, ⟨[], by simp [resampleWalk]⟩, ?_⟩
    intro hlt; omega
  | cons b rest ih =>
    intro a carry out hs hc0 hcs hne hlen hpot
    by_cases hlt : out.length < N
    · have hPL : pathLength (a :: b :: rest) = segDist a b + pathLength (b :: rest) :=
        pathLength_cons_cons a b rest
      obtain ⟨⟨ems1, hems1⟩, hmono, hub, hcons, hnn, hexit, hlast⟩ :=
        emitLoop_spec s a b N (N - out.length) carry (segDist a b) out rfl
          hs hc0 hcs (segDist_nonneg a b) (le_of_lt hlt)
      have hwalk : resampleWalk s N (b :: rest) a carry out =
          resampleWalk s N rest b
            (emitLoop s a b N carry (segDist a b) out).2
            (emitLoop s a b N carry (segDist a b) out).1 := by
        simp only [resampleWalk, if_pos hlt]
      by_cases hNfull : (emitLoop s a b N carry (segDist a b) out).1.length = N
      · -- the inner loop filled the output: the remaining chain has length 0
        have hzero : (emitLoop s a b N carry (segDist a b) out).2 = 0 ∧
            pathLength (b :: rest) = 0 := by
          have hp := pathLength_nonneg (b :: rest)
          rw [hNfull] at hcons
          constructor <;> nlinarith [hnn]
        have hgl : (emitLoop s a b N carry (segDist a b) out).1.getLast? = some b :=
          hlast hNfull hlt hzero.1
        rw [hwalk, resampleWalk_of_full s N rest b _ _ (by omega)]
        obtain ⟨hbx, hby⟩ := pathLength_zero_lastPt b rest hzero.2
        refine ⟨hNfull, ⟨ems1, hems1⟩, ?_⟩
        intro _
        exact ⟨b, hgl, by rw [lastPt_cons, hbx], by rw [lastPt_cons, hby]⟩
      · -- the inner loop exited with leftover below s: recurse
        have hR2 : (emitLoop s a b N carry (segDist a b) out).2 < s :=
          hexit.resolve_left hNfull
        have hne' : (emitLoop s a b N carry (segDist a b) out).1 ≠ [] := by
          rw [hems1]
          intro hcontra
          exact hne (List.append_eq_nil.mp hcontra).1
        have hpot' : ((emitLoop s a b N carry (segDist a b) out).1.length : ℝ) * s +
            (emitLoop s a b N carry (segDist a b) out).2 + pathLength (b :: rest)
            = (N : ℝ) * s := by
          rw [hPL] at hpot
          linarith [hcons]
        obtain ⟨hlen2, ⟨ems2, hems2⟩, hlast2⟩ :=
          ih b (emitLoop s a b N carry (segDist a b) out).2
            (emitLoop s a b N carry (segDist a b) out).1
            hs hnn hR2 hne' hub hpot'
        rw [hwalk]
        refine ⟨hlen2, ⟨ems1 ++ ems2, by rw [hems2, hems1, List.append_assoc]⟩, ?_⟩
        intro _
        obtain ⟨p, hp, hpx, hpy⟩ := hlast2 (lt_of_le_of_ne hub hNfull)
        exact ⟨p, hp, by rw [lastPt_cons]; exact hpx, by rw [lastPt_cons]; exact hpy⟩
    · have hfull : out.length = N := by omega
      rw [resampleWalk_of_full s N (b :: rest) a carry out hlt]
      exact ⟨hfull, ⟨[], by simp⟩, by intro h; omega⟩

/-- Main correctness property of resampleTrajectory for non-degenerate
input: with at least two points, positive total path length and a target of
at least two points, the result has exactly numPoints points, keeps the
first point exactly and ends in a point carrying the coordinates of the
input's last point. -/
theorem resample_main (traj : List Pt) (N : ℕ)
    (h2 : 2 ≤ traj.length) (hN : 2 ≤ N) (hL : 0 < pathLength traj) :
    (resampleTrajectory traj N).length = N ∧
    (resampleTrajectory traj N).head? = traj.head? ∧
    ∃ p q, (resampleTrajectory traj N).getLast? = some p ∧
      traj.getLast? = some q ∧ p.x = q.x ∧ p.y = q.y := by
  match traj, h2 with
  | a :: c :: tl, _ =>
    set tail := c :: tl with htail
    have hden : (0:ℝ) < (N : ℝ) - 1 := by
      have : (2:ℝ) ≤ (N : ℝ) := by exact_mod_cast hN
      linarith
    set s := pathLength (a :: tail) / ((N : ℝ) - 1) with hsdef
    have hs : 0 < s := div_pos hL hden
    have hpot : ((([a] : List Pt).length : ℝ)) * s + 0 + pathLength (a :: tail) = (N : ℝ) * s := by
      have hmul : ((N : ℝ) - 1) * s = pathLength (a :: tail) := by
        rw [hsdef]
        field_simp
      simp only [List.length_cons, List.length_nil]
      push_cast
      nlinarith [hmul]
    obtain ⟨hlenN, ⟨ems, hems⟩, hlastf⟩ :=
      resampleWalk_spec s N tail a 0 [a] hs (le_refl 0) hs (by simp)
        (by simp only [List.length_cons, List.length_nil]; omega) hpot
    have hres : resampleTrajectory (a :: tail) N =
        resampleWalk s N tail a 0 [a] := by
      rw [resampleTrajectory, if_neg (by simp [htail])]
      simp only [List.tail_cons, List.headI_cons]
      rw [← hsdef, if_neg (by rw [hlenN]; omega)]
    rw [hres]
    refine ⟨hlenN, ?_, ?_⟩
    · rw [hems]; simp
    · obtain ⟨p, hp, hpx, hpy⟩ := hlastf (by simp only [List.length_cons, List.length_nil]; omega)
      refine ⟨p, lastPt a tail, hp, ?_, hpx, hpy⟩
      simp only [lastPt]
      exact List.getLast?_eq_getLast _ _

/-- C1 (amended): the IR-loss rejection checks of readCameraData run in the
order bounding box (Too Small), total movement (No Match), point count
(Too Short); the earliest failing check decides the outcome, and
classification is attempted exactly when all three pass outside
custom-recording mode. -/
theorem C1_rejection_order (flag : Bool) (traj : List Pt) :
    (processRecordingEnd flag traj = .tooSmall ↔ hasMinimumMovement traj = false) ∧
    (processRecordingEnd flag traj = .noMatchMovement ↔
      hasMinimumMovement traj = true ∧ pathLength traj ≤ 50) ∧
    (processRecordingEnd flag traj = .tooShort ↔
      hasMinimumMovement traj = true ∧ 50 < pathLength traj ∧
        traj.length < MIN_TRAJECTORY_POINTS) ∧
    (processRecordingEnd flag traj = .classifyAttempted ↔
      hasMinimumMovement traj = true ∧ 50 < pathLength traj ∧
        MIN_TRAJECTORY_POINTS ≤ traj.length ∧ flag = false) := by
  unfold processRecordingEnd
  split_ifs with h1 h2 h3 h4 <;>
    simp_all [not_lt, le_of_lt]

/-- C1 counterexample: a three-point, 20-px back-and-forth trajectory is
both too short (3 < 50 points) and too small (10 by 0 bounding box); the
claim predicts the outcome Too Short, the code shows Too Small. -/
theorem C1_counterexample :
    processRecordingEnd false [⟨0, 0, 0⟩, ⟨10, 0, 100⟩, ⟨0, 0, 200⟩] =
      RecordingOutcome.tooSmall ∧
    ([(⟨0, 0, 0⟩ : Pt), ⟨10, 0, 100⟩, ⟨0, 0, 200⟩].length < MIN_TRAJECTORY_POINTS) ∧
    RecordingOutcome.tooSmall ≠ RecordingOutcome.tooShort := by
  refine ⟨?_, by decide, by decide⟩
  unfold processRecordingEnd
  rw [if_pos (by decide)]

/-- C6: during Recording, a point farther than POINT_JUMP_THRESHOLD from
the last accepted point is rejected and leaves the trajectory unchanged;
recording a two-point sequence whose step exceeds the threshold leaves a
single-point trajectory. -/
theorem C6_outlier_rejection (traj : List Pt) (p q : Pt) :
    (traj ≠ [] → POINT_JUMP_THRESHOLD < segDist traj.getLastI p →
      recordingPush traj p = traj) ∧
    (POINT_JUMP_THRESHOLD < segDist p q →
      (recordingPush (recordingPush [] p) q).length = 1) := by
  constructor
  · intro hne hd
    unfold recordingPush
    rw [if_pos ⟨hne, hd⟩]
  · intro hd
    have h1 : recordingPush [] p = [p] := by
      unfold recordingPush
      rw [if_neg (by simp), if_neg (by simp [MAX_TRAJECTORY_POINTS])]
      simp
    have h2 : recordingPush [p] q = [p] := by
      unfold recordingPush
      rw [if_pos ⟨by simp, by simpa [List.getLastI] using hd⟩]
    rw [h1, h2]
    rfl

/-- C6 witness: the threshold hypotheses discharged at the concrete points
(0,0), (50,0), (100,0), whose consecutive distances are 50 > 40. -/
theorem C6_witness :
    recordingPush [(⟨0, 0, 0⟩ : Pt)] ⟨50, 0, 1⟩ = [⟨0, 0, 0⟩] ∧
    (recordingPush (recordingPush [] (⟨50, 0, 1⟩ : Pt)) ⟨100, 0, 2⟩).length = 1 := by
  have hsqrt : Real.sqrt 2500 = 50 := by
    rw [show (2500 : ℝ) = 50 ^ 2 by norm_num, Real.sqrt_sq (by norm_num : (0:ℝ) ≤ 50)]
  have hd1 : POINT_JUMP_THRESHOLD < segDist ([(⟨0, 0, 0⟩ : Pt)].getLastI) ⟨50, 0, 1⟩ := by
    have h : segDist ([(⟨0, 0, 0⟩ : Pt)].getLastI) ⟨50, 0, 1⟩ = Real.sqrt 2500 := by
      unfold segDist
      norm_num [List.getLastI]
    rw [h, hsqrt]
    unfold POINT_JUMP_THRESHOLD
    norm_num
  have hd2 : POINT_JUMP_THRESHOLD < segDist (⟨50, 0, 1⟩ : Pt) ⟨100, 0, 2⟩ := by
    have h : segDist ((⟨50, 0, 1⟩ : Pt)) ⟨100, 0, 2⟩ = Real.sqrt 2500 := by
      unfold segDist
      norm_num
    rw [h, hsqrt]
    unfold POINT_JUMP_THRESHOLD
    norm_num
  exact ⟨(C6_outlier_rejection [⟨0, 0, 0⟩] ⟨50, 0, 1⟩ ⟨100, 0, 2⟩).1 (by simp) hd1,
    (C6_outlier_rejection [⟨50, 0, 1⟩] ⟨50, 0, 1⟩ ⟨100, 0, 2⟩).2 hd2⟩

/-- The blob scan finds exactly the first valid blob at or after index i. -/
theorem parseBlobs_spec (data : List Nat) :
    ∀ (k i : Nat), k = 4 - i →
    ((parseBlobs data i = none ↔ ∀ j, i ≤ j → j < 4 → blobValid data j = false) ∧
     (∀ xy, parseBlobs data i = some xy ↔
       ∃ t, i ≤ t ∧ t < 4 ∧ blobValid data t = true ∧
         (∀ j, i ≤ j → j < t → blobValid data j = false) ∧ xy = blobPoint data t)) := by
  intro k
  induction k with
  | zero =>
    intro i hk
    rw [parseBlobs, if_neg (by omega)]
    constructor
    · constructor
      · intro _ j hij hj4
        omega
      · intro _
        rfl
    · intro xy
      constructor
      · intro hcontra
        exact absurd hcontra (by simp)
      · rintro ⟨t, hit, ht4, -, -, -⟩
        omega
  | succ k ih =>
    intro i hk
    have hi : i < 4 := by omega
    rw [parseBlobs, if_pos hi, if_pos (by omega)]
    by_cases hv : blobValid data i = true
    · rw [if_pos hv]
      constructor
      · constructor
        · intro hcontra
          exact absurd hcontra (by simp)
        · intro hall
          exact absurd (hall i (le_refl i) hi) (by simp [hv])
      · intro xy
        constructor
        · intro hsome
          exact ⟨i, le_refl i, hi, hv, fun j hij hji => absurd hji (by omega),
            (Option.some.inj hsome).symm⟩
        · rintro ⟨t, hit, ht4, htv, hprev, hxy⟩
          have hti : t = i := by
            by_contra hne
            have hlt : i < t := lt_of_le_of_ne hit (Ne.symm hne)
            exact absurd (hprev i (le_refl i) hlt) (by simp [hv])
          subst hti
          rw [hxy]
    · rw [if_neg hv]
      have hvf : blobValid data i = false := by
        simpa using hv
      obtain ⟨ihnone, ihsome⟩ := ih (i + 1) (by omega)
      constructor
      · rw [ihnone]
        constructor
        · intro hall j hij hj4
          rcases Nat.eq_or_lt_of_le hij with heq | hlt
          · rw [← heq]
            exact hvf
          · exact hall j (by omega) hj4
        · intro hall j h1j hj4
          exact hall j (by omega) hj4
      · intro xy
        rw [ihsome xy]
        constructor
        · rintro ⟨t, h1t, ht4, htv, hprev, hxy⟩
          refine ⟨t, by omega, ht4, htv, ?_, hxy⟩
          intro j hij hjt
          rcases Nat.eq_or_lt_of_le hij with heq | hlt
          · rw [← heq]
            exact hvf
          · exact hprev j (by omega) hjt
        · rintro ⟨t, hit, ht4, htv, hprev, hxy⟩
          have hne : i ≠ t := by
            intro heq
            rw [← heq, hvf] at htv
            simp at htv
          refine ⟨t, by omega, ht4, htv, ?_, hxy⟩
          intro j h1j hjt
          exact hprev j (by omega) hjt

/-- C7: the four 3-byte blob records decode to x and y by the packed-bits
formulas, a blob is invalid exactly when a decoded coordinate is 0x3FF, the
first valid blob wins, and a bus error or a short read leaves the state
untouched (the state machine is never reached). -/
theorem C7_frame_parsing (data : List Nat) {St : Type}
    (machine : Option (Nat × Nat) → St → St) (bytesRead : Nat) (st : St) :
    (∀ i, blobValid data i = true ↔
      (blobPoint data i).1 ≠ 0x3FF ∧ (blobPoint data i).2 ≠ 0x3FF) ∧
    (parseFrame data = none ↔ ∀ j, j < 4 → blobValid data j = false) ∧
    (∀ xy, parseFrame data = some xy ↔
      ∃ t, t < 4 ∧ blobValid data t = true ∧
        (∀ j, j < t → blobValid data j = false) ∧ xy = blobPoint data t) ∧
    readCameraData machine true bytesRead data st = st ∧
    (bytesRead ≠ 16 → readCameraData machine false bytesRead data st = st) := by
  obtain ⟨hnone, hsome⟩ := parseBlobs_spec data 4 0 rfl
  refine ⟨?_, ?_, ?_, ?_, ?_⟩
  · intro i
    simp [blobValid]
  · unfold parseFrame
    rw [hnone]
    constructor
    · intro h j hj
      exact h j (Nat.zero_le j) hj
    · intro h j _ hj
      exact h j hj
  · intro xy
    unfold parseFrame
    rw [hsome xy]
    constructor
    · rintro ⟨t, -, ht4, htv, hprev, hxy⟩
      exact ⟨t, ht4, htv, fun j hj => hprev j (Nat.zero_le j) hj, hxy⟩
    · rintro ⟨t, ht4, htv, hprev, hxy⟩
      exact ⟨t, Nat.zero_le t, ht4, htv, fun j _ hj => hprev j hj, hxy⟩
  · unfold readCameraData
    rw [if_pos rfl]
  · intro hb
    unfold readCameraData
    rw [if_neg (by simp), if_pos hb]

/-- C7 witness: on the example frame blob 0 is invalid and blob 1 decodes
to (16, 32); with bytesRead = 5 the short-read hypothesis is discharged. -/
theorem C7_witness :
    readCameraData (fun (_ : Option (Nat × Nat)) (n : Nat) => n + 1) true 5 frameExample 0 = 0 ∧
    readCameraData (fun (_ : Option (Nat × Nat)) (n : Nat) => n + 1) false 5 frameExample 0 = 0 ∧
    parseFrame frameExample = some (16, 32) := by
  have h := C7_frame_parsing frameExample
    (fun (_ : Option (Nat × Nat)) (n : Nat) => n + 1) 5 (0 : Nat)
  exact ⟨h.2.2.2.1, h.2.2.2.2 (by decide),
    (h.2.2.1 (16, 32)).mpr ⟨1, by decide, by decide, by decide, by decide⟩⟩

/-- C4 (amended): for a trajectory of at least two points with positive
total path length and any numPoints of at least 2, resampleTrajectory
returns exactly numPoints points; the first point is preserved exactly and
the last point's coordinates are preserved exactly. -/
theorem C4_resample_length_endpoints (traj : List Pt) (N : Nat)
    (h2 : 2 ≤ traj.length) (hN : 2 ≤ N) (hL : 0 < pathLength traj) :
    (resampleTrajectory traj N).length = N ∧
    (resampleTrajectory traj N).head? = traj.head? ∧
    ∃ p q, (resampleTrajectory traj N).getLast? = some p ∧
      traj.getLast? = some q ∧ p.x = q.x ∧ p.y = q.y :=
  resample_main traj N h2 hN hL

/-- C4 counterexample: the non-empty single-point trajectory is returned
unchanged by resampleTrajectory, so the result has 1 point, not the
requested 2. -/
theorem C4_counterexample :
    (resampleTrajectory [⟨5, 7, 0⟩] 2).length = 1 ∧ (1 : Nat) ≠ 2 := by
  constructor
  · rw [resampleTrajectory, if_pos (by simp)]
    rfl
  · decide

/-- C4 witness: the amended theorem applied to the two-point trajectory
(0,0) to (3,4), whose path length is sqrt 25 = 5 > 0, with numPoints 2. -/
theorem C4_witness :
    (resampleTrajectory [(⟨0, 0, 0⟩ : Pt), ⟨3, 4, 8⟩] 2).length = 2 ∧
    (resampleTrajectory [(⟨0, 0, 0⟩ : Pt), ⟨3, 4, 8⟩] 2).head? =
      [(⟨0, 0, 0⟩ : Pt), ⟨3, 4, 8⟩].head? ∧
    ∃ p q, (resampleTrajectory [(⟨0, 0, 0⟩ : Pt), ⟨3, 4, 8⟩] 2).getLast? = some p ∧
      [(⟨0, 0, 0⟩ : Pt), ⟨3, 4, 8⟩].getLast? = some q ∧ p.x = q.x ∧ p.y = q.y := by
  apply C4_resample_length_endpoints
  · simp
  · norm_num
  · have h : pathLength [(⟨0, 0, 0⟩ : Pt), ⟨3, 4, 8⟩] = Real.sqrt 25 := by
      simp only [pathLength]
      unfold segDist
      norm_num
    rw [h]
    exact Real.sqrt_pos.mpr (by norm_num)

theorem angleDiff_self (u : ℝ) : angleDiff u u = 0 := by
  unfold angleDiff
  rw [sub_self, abs_zero, if_neg (lt_asymm Real.pi_pos)]

theorem zip_self_angleDiff_sum (l : List ℝ) :
    ((l.zip l).map (fun pr => angleDiff pr.1 pr.2)).sum = 0 := by
  induction l with
  | nil => simp
  | cons a r ih => simp [angleDiff_self, ih]

theorem zip_self_segDist_sum (l : List Pt) :
    ((l.zip l).map (fun pr => segDist pr.1 pr.2)).sum = 0 := by
  induction l with
  | nil => simp
  | cons a r ih => simp [segDist_self, ih]

theorem dirAngles_mem_bounds (l : List Pt) (u : ℝ) (h : u ∈ dirAngles l) :
    -Real.pi < u ∧ u ≤ Real.pi := by
  unfold dirAngles at h
  obtain ⟨pr, -, rfl⟩ := List.mem_map.mp h
  unfold atan2
  exact ⟨Complex.neg_pi_lt_arg _, Complex.arg_le_pi _⟩

theorem angleDiff_nonneg_of_bounds (u v : ℝ)
    (hu : -Real.pi < u ∧ u ≤ Real.pi) (hv : -Real.pi < v ∧ v ≤ Real.pi) :
    0 ≤ angleDiff u v := by
  unfold angleDiff
  split_ifs with h
  · have h1 : |u - v| < 2 * Real.pi := by
      rw [abs_lt]
      constructor <;> linarith [hu.1, hu.2, hv.1, hv.2]
    linarith
  · exact abs_nonneg _

theorem dirSum_nonneg (t1 t2 : List Pt) :
    0 ≤ (((dirAngles t1).zip (dirAngles t2)).map (fun pr => angleDiff pr.1 pr.2)).sum := by
  apply List.sum_nonneg
  intro x hx
  obtain ⟨pr, hpr, rfl⟩ := List.mem_map.mp hx
  obtain ⟨h1, h2⟩ := List.of_mem_zip hpr
  exact angleDiff_nonneg_of_bounds _ _ (dirAngles_mem_bounds t1 _ h1) (dirAngles_mem_bounds t2 _ h2)

theorem calculateDirectionSimilarity_self (P : List Pt) (h2 : 2 ≤ P.length) :
    calculateDirectionSimilarity P P = 1 := by
  unfold calculateDirectionSimilarity
  rw [if_neg (by push_neg; exact ⟨rfl, by omega⟩)]
  rw [zip_self_angleDiff_sum (dirAngles P)]
  norm_num

theorem calculateDirectionSimilarity_nonneg (t1 t2 : List Pt) :
    0 ≤ calculateDirectionSimilarity t1 t2 := by
  unfold calculateDirectionSimilarity
  split_ifs with h
  · exact le_refl 0
  · exact le_max_left 0 _

theorem calculateDirectionSimilarity_le_one (t1 t2 : List Pt) :
    calculateDirectionSimilarity t1 t2 ≤ 1 := by
  unfold calculateDirectionSimilarity
  split_ifs with h
  · norm_num
  · push_neg at h
    apply max_le (by norm_num)
    have hlen : (2 : ℝ) ≤ (t1.length : ℝ) := by exact_mod_cast h.2
    have hden : (0 : ℝ) ≤ (t1.length : ℝ) - 1 := by linarith
    have hq : 0 ≤ (((dirAngles t1).zip (dirAngles t2)).map
        (fun pr => angleDiff pr.1 pr.2)).sum / ((t1.length : ℝ) - 1) / Real.pi :=
      div_nonneg (div_nonneg (dirSum_nonneg t1 t2) hden) (le_of_lt Real.pi_pos)
    linarith

theorem calculateSimilarity_self (P : List Pt) (h2 : 2 ≤ P.length) :
    calculateSimilarity P P = 1 := by
  unfold calculateSimilarity
  rw [if_neg (by push_neg; exact ⟨rfl, by omega⟩)]
  rw [zip_self_segDist_sum P, calculateDirectionSimilarity_self P h2]
  norm_num

theorem calculateSimilarity_bounds (a b : List Pt) :
    0 ≤ calculateSimilarity a b ∧ calculateSimilarity a b ≤ 1 := by
  unfold calculateSimilarity
  split_ifs with h
  · norm_num
  · refine ⟨le_max_left 0 _, ?_⟩
    apply max_le (by norm_num)
    have hS : 0 ≤ ((a.zip b).map (fun pr => segDist pr.1 pr.2)).sum := by
      apply List.sum_nonneg
      intro x hx
      obtain ⟨pr, -, rfl⟩ := List.mem_map.mp hx
      exact segDist_nonneg pr.1 pr.2
    have hq : 0 ≤ ((a.zip b).map (fun pr => segDist pr.1 pr.2)).sum
        / (a.length : ℝ) / 1414 :=
      div_nonneg (div_nonneg hS (Nat.cast_nonneg _)) (by norm_num)
    have hdir_le := calculateDirectionSimilarity_le_one a b
    have hdir_ge := calculateDirectionSimilarity_nonneg a b
    nlinarith

/-- C5: the similarity score of any preprocessed pattern with itself is
exactly 1, and every score lies between 0 and 1. -/
theorem C5_score_bounds_identity (P a b : List Pt) :
    (2 ≤ P.length → calculateSimilarity P P = 1) ∧
    0 ≤ calculateSimilarity a b ∧ calculateSimilarity a b ≤ 1 :=
  ⟨fun h2 => calculateSimilarity_self P h2,
   (calculateSimilarity_bounds a b).1, (calculateSimilarity_bounds a b).2⟩

/-- C5 witness: the identity hypothesis discharged at the two-point pattern
(0,0)-(3,4); the bounds instantiated at empty inputs. -/
theorem C5_witness :
    calculateSimilarity [(⟨0, 0, 0⟩ : Pt), ⟨3, 4, 8⟩] [(⟨0, 0, 0⟩ : Pt), ⟨3, 4, 8⟩] = 1 ∧
    0 ≤ calculateSimilarity ([] : List Pt) [] ∧
    calculateSimilarity ([] : List Pt) [] ≤ 1 := by
  have h := C5_score_bounds_identity [(⟨0, 0, 0⟩ : Pt), ⟨3, 4, 8⟩] ([] : List Pt) []
  exact ⟨h.1 (by simp), h.2.1, h.2.2⟩

theorem normalizeTrajectory_length (traj : List Pt) :
    (normalizeTrajectory traj).length = traj.length := by
  unfold normalizeTrajectory
  split_ifs
  · rfl
  · simp

theorem take_two_structure (l : List Pt) (a b : Pt) (h : l.take 2 = [a, b]) :
    ∃ r, l = a :: b :: r := by
  match l with
  | [] => simp at h
  | [x] => simp at h
  | x :: y :: ys =>
    simp only [List.take_succ_cons, List.take_zero] at h
    rw [List.cons.injEq, List.cons.injEq] at h
    exact ⟨ys, by rw [h.1, h.2.1]⟩

/-- C2 evaluated at the failing input: with an overlay custom entry whose
raw pattern is the 2-point list (0,0), (5000,7000), the built catalogue's
last template stores exactly those raw points, so its pattern has 2 points
instead of RESAMPLE_POINTS and holds a coordinate far outside 0..1000:
loadCustomSpells never re-normalizes or re-resamples overlay patterns. -/
theorem C2_overlay_pattern_raw :
    ∃ sp, (spellCatalogue overlayShortPattern).getLast? = some sp ∧
      sp.pattern = [⟨0, 0, 0⟩, ⟨5000, 7000, 100⟩] ∧
      sp.pattern.length ≠ RESAMPLE_POINTS ∧
      ∃ p ∈ sp.pattern, 1000 < p.x := by
  have hcat : spellCatalogue overlayShortPattern =
      initSpellPatterns ++ [⟨"Blob", patternPoints [(0, 0), (5000, 7000)], ""⟩] := rfl
  refine ⟨⟨"Blob", patternPoints [(0, 0), (5000, 7000)], ""⟩, ?_, by decide, by decide, by decide⟩
  rw [hcat]
  exact List.getLast?_concat _

/-- C3 evaluated at the failing input: the user trajectory has the required
50 points, its resampled form has 40 points, and the catalogue produced by
initSpellPatterns followed by loadCustomSpells on the short-pattern overlay
contains a template with only 2 pattern points, so the scoring loop's reads
are not all in bounds. -/
theorem C3_scoring_read_out_of_bounds :
    MIN_TRAJECTORY_POINTS ≤ exTraj.length ∧
    ¬ scoringReadsInBounds (spellCatalogue overlayShortPattern) exTraj := by
  have hcat : spellCatalogue overlayShortPattern =
      initSpellPatterns ++ [⟨"Blob", patternPoints [(0, 0), (5000, 7000)], ""⟩] := rfl
  constructor
  · decide
  · intro hsafe
    have htake : (normalizeTrajectory exTraj).take 2 = [⟨0, 0, 0⟩, ⟨20, 0, 1⟩] := by decide
    obtain ⟨r, hr⟩ := take_two_structure _ _ _ htake
    have hlen2 : 2 ≤ (normalizeTrajectory exTraj).length := by
      rw [hr]
      simp only [List.length_cons]
      omega
    have hpos : 0 < pathLength (normalizeTrajectory exTraj) := by
      rw [hr, pathLength_cons_cons]
      have h1 : 0 < segDist ⟨0, 0, 0⟩ ⟨20, 0, 1⟩ := by
        unfold segDist
        apply Real.sqrt_pos.mpr
        norm_num
      have h2 := pathLength_nonneg ((⟨20, 0, 1⟩ : Pt) :: r)
      linarith
    obtain ⟨hlen40, -, -⟩ := resample_main (normalizeTrajectory exTraj) 40 hlen2 (by norm_num) hpos
    have hmem : (⟨"Blob", patternPoints [(0, 0), (5000, 7000)], ""⟩ : SpellPattern) ∈
        spellCatalogue overlayShortPattern := by
      rw [hcat]
      simp
    have hbad := hsafe _ hmem 2 (by rw [hlen40]; norm_num)
    have hplen : (patternPoints [((0 : Int), (0 : Int)), (5000, 7000)]).length = 2 := by decide
    rw [hplen] at hbad
    omega

theorem foldl_max_bounds : ∀ (l : List Int) (init : Int),
    (∀ v ∈ l, v ≤ l.foldl max init) ∧ init ≤ l.foldl max init := by
  intro l
  induction l with
  | nil =>
    intro init
    exact ⟨by intro v hv; simp at hv, le_refl _⟩
  | cons a t ih =>
    intro init
    obtain ⟨hmem, hinit⟩ := ih (max init a)
    refine ⟨?_, ?_⟩
    · intro v hv
      rcases List.mem_cons.mp hv with rfl | hvt
      · exact le_trans (le_max_right init v) hinit
      · exact hmem v hvt
    · exact le_trans (le_max_left init a) hinit

theorem foldl_max_attained : ∀ (l : List Int) (init : Int),
    l.foldl max init = init ∨ l.foldl max init ∈ l := by
  intro l
  induction l with
  | nil => intro init; exact Or.inl rfl
  | cons a t ih =>
    intro init
    rcases ih (max init a) with heq | hmem
    · rcases le_total a init with hle | hle
      · left
        rw [List.foldl_cons, heq, max_eq_left hle]
      · right
        rw [List.foldl_cons, heq, max_eq_right hle]
        exact List.mem_cons_self a t
    · right
      exact List.mem_cons_of_mem a hmem

theorem maxCustomNum_eq_foldl (entries : List CustomEntry) :
    maxCustomNum (entries.map (fun e => e.name)) = (customNumbers entries).foldl max 0 := by
  unfold maxCustomNum customNumbers
  generalize (0 : Int) = init
  induction entries generalizing init with
  | nil => rfl
  | cons e t ih =>
    cases hnm : e.name with
    | none =>
      simp only [List.map_cons, List.foldl_cons, List.filterMap_cons, hnm, Option.none_bind]
      exact ih init
    | some n =>
      by_cases hpre : startsWithCustom n = true
      · simp only [List.map_cons, List.foldl_cons, List.filterMap_cons, hnm, Option.some_bind,
          if_pos hpre]
        rw [show (if init < atoiModel (n.drop 7) then atoiModel (n.drop 7) else init)
            = max init (atoiModel (n.drop 7)) from by rw [max_comm]; split_ifs <;> omega]
        exact ih _
      · simp only [List.map_cons, List.foldl_cons, List.filterMap_cons, hnm, Option.some_bind,
          if_neg hpre]
        exact ih init

/-- C8: the recorded spell is appended to the overlay's custom array with
auto-generated name "Custom k", where k is one more than the largest
number carried by existing "Custom "-prefixed entries (zero if there are
none): k exceeds every existing number, k is 1 when there are none, and
k - 1 is an existing number otherwise. -/
theorem C8_auto_name (existing : List CustomEntry) (recorded : List Pt)
    (hnn : ∀ v ∈ customNumbers existing, 0 ≤ v) :
    ∃ k : Int,
      (saveRecordedSpellCustoms existing recorded).2 = "Custom " ++ toString k ∧
      (saveRecordedSpellCustoms existing recorded).1 =
        existing ++ [⟨some ("Custom " ++ toString k), none,
          recorded.map (fun p => (p.x, p.y))⟩] ∧
      (∀ v ∈ customNumbers existing, v < k) ∧
      (customNumbers existing = [] → k = 1) ∧
      (customNumbers existing ≠ [] → (k - 1) ∈ customNumbers existing) := by
  refine ⟨maxCustomNum (existing.map (fun e => e.name)) + 1, rfl, rfl, ?_, ?_, ?_⟩
  · intro v hv
    have hub := (foldl_max_bounds (customNumbers existing) 0).1 v hv
    rw [maxCustomNum_eq_foldl]
    omega
  · intro hempty
    rw [maxCustomNum_eq_foldl, hempty]
    rfl
  · intro hne
    rw [maxCustomNum_eq_foldl]
    rcases foldl_max_attained (customNumbers existing) 0 with heq | hmem
    · obtain ⟨v, hv⟩ : ∃ v, v ∈ customNumbers existing := by
        cases hl : customNumbers existing with
        | nil => exact absurd hl hne
        | cons v t => exact ⟨v, hl ▸ List.mem_cons_self v t⟩
      have h1 := (foldl_max_bounds (customNumbers existing) 0).1 v hv
      rw [heq] at h1
      have h2 := hnn v hv
      have hv0 : v = 0 := by omega
      rw [heq, show (0 : Int) + 1 - 1 = v from by omega]
      exact hv
    · simpa using hmem

/-- C8 witness: with existing customs "Custom 1" and "Custom 3" the next
recorded spell is named "Custom 4" (the claim's own example). -/
theorem C8_witness :
    (∃ k : Int,
      (saveRecordedSpellCustoms
        [⟨some "Custom 1", none, []⟩, ⟨some "Custom 3", none, []⟩] []).2 =
          "Custom " ++ toString k ∧
      (saveRecordedSpellCustoms
        [⟨some "Custom 1", none, []⟩, ⟨some "Custom 3", none, []⟩] []).1 =
        [⟨some "Custom 1", none, []⟩, ⟨some "Custom 3", none, []⟩] ++
          [⟨some ("Custom " ++ toString k), none, ([] : List Pt).map (fun p => (p.x, p.y))⟩] ∧
      (∀ v ∈ customNumbers [⟨some "Custom 1", none, []⟩, ⟨some "Custom 3", none, []⟩], v < k) ∧
      (customNumbers [⟨some "Custom 1", none, []⟩, ⟨some "Custom 3", none, []⟩] = [] → k = 1) ∧
      (customNumbers [⟨some "Custom 1", none, []⟩, ⟨some "Custom 3", none, []⟩] ≠ [] →
        (k - 1) ∈ customNumbers [⟨some "Custom 1", none, []⟩, ⟨some "Custom 3", none, []⟩])) ∧
    (saveRecordedSpellCustoms
      [⟨some "Custom 1", none, []⟩, ⟨some "Custom 3", none, []⟩] []).2 = "Custom 4" := by
  constructor
  · exact C8_auto_name [⟨some "Custom 1", none, []⟩, ⟨some "Custom 3", none, []⟩] []
      (by decide)
  · decide

theorem reconnectMQTT_fail_step (st : MqttState) (inp : MqttInput)
    (h : dueFailedAttempt st inp) :
    (reconnectMQTT st inp).backoffInterval =
      min (st.backoffInterval * 2 % U32MOD) MQTT_BACKOFF_MAX := by
  obtain ⟨h1, h2, h3, h4, h5⟩ := h
  unfold reconnectMQTT
  rw [if_neg h1, if_neg (by rw [h2]; simp), if_pos (by rw [h3]), if_pos h4,
    if_neg (by rw [h5]; simp)]

theorem runMQTT_failures (inputs : List MqttInput) :
    ∀ (st : MqttState) (j : Nat),
    st.backoffInterval = min (5000 * 2 ^ j) MQTT_BACKOFF_MAX →
    ConsecutiveFailures st inputs →
    (runMQTT st inputs).backoffInterval =
      min (5000 * 2 ^ (j + inputs.length)) MQTT_BACKOFF_MAX := by
  induction inputs with
  | nil =>
    intro st j hj _
    simpa [runMQTT] using hj
  | cons inp rest ih =>
    intro st j hj hfail
    cases hfail with
    | cons _ _ _ hdue hrest =>
      have hstep := reconnectMQTT_fail_step st inp hdue
      rw [hj] at hstep
      have hcap : min (5000 * 2 ^ j) MQTT_BACKOFF_MAX ≤ MQTT_BACKOFF_MAX :=
        min_le_right _ _
      have hsmall : min (5000 * 2 ^ j) MQTT_BACKOFF_MAX * 2 < U32MOD := by
        unfold MQTT_BACKOFF_MAX at hcap ⊢
        unfold U32MOD
        omega
      rw [Nat.mod_eq_of_lt hsmall] at hstep
      have hnext : (reconnectMQTT st inp).backoffInterval =
          min (5000 * 2 ^ (j + 1)) MQTT_BACKOFF_MAX := by
        rw [hstep]
        rcases le_total (5000 * 2 ^ j) MQTT_BACKOFF_MAX with hle | hge
        · rw [min_eq_left hle, pow_succ]
          ring_nf
        · rw [min_eq_right hge]
          rw [min_eq_right (by unfold MQTT_BACKOFF_MAX at hge ⊢; omega)]
          rw [min_eq_right ?_]
          calc MQTT_BACKOFF_MAX ≤ 5000 * 2 ^ j := hge
            _ ≤ 5000 * 2 ^ (j + 1) := by
              apply Nat.mul_le_mul_left
              exact Nat.pow_le_pow_right (by norm_num) (by omega)
      have hres := ih (reconnectMQTT st inp) (j + 1) hnext hrest
      have hrun : runMQTT st (inp :: rest) = runMQTT (reconnectMQTT st inp) rest := rfl
      rw [hrun, hres, show j + 1 + rest.length = j + (inp :: rest).length from by
        simp only [List.length_cons]
        omega]

/-- C9: the MQTT backoff interval starts at 5 seconds, equals
min(5 s * 2^k, 1 h) after k consecutive failed due attempts, and a single
successful connection (either observed as connected, or a successful
attempt) resets it to 5 seconds. -/
theorem C9_mqtt_backoff (st : MqttState) (inputs : List MqttInput)
    (hstart : st.backoffInterval = 5000)
    (hfail : ConsecutiveFailures st inputs) :
    mqttInitialState.backoffInterval = 5000 ∧
    (runMQTT st inputs).backoffInterval =
      min (5000 * 2 ^ inputs.length) MQTT_BACKOFF_MAX ∧
    (∀ (st2 : MqttState) (inp : MqttInput), inp.hostLen ≠ 0 → inp.connected = false →
      inp.wifiConnected = true → st2.backoffInterval ≤ u32sub inp.now st2.lastReconnect →
      inp.connectOk = true → (reconnectMQTT st2 inp).backoffInterval = 5000) ∧
    (∀ (st3 : MqttState) (inp : MqttInput), inp.hostLen ≠ 0 → inp.connected = true →
      st3.wasConnected = false → (reconnectMQTT st3 inp).backoffInterval = 5000) := by
  refine ⟨rfl, ?_, ?_, ?_⟩
  · have h0 : st.backoffInterval = min (5000 * 2 ^ 0) MQTT_BACKOFF_MAX := by
      rw [hstart]
      rfl
    have := runMQTT_failures inputs st 0 h0 hfail
    simpa using this
  · intro st2 inp h1 h2 h3 h4 h5
    unfold reconnectMQTT
    rw [if_neg h1, if_neg (by rw [h2]; simp), if_pos (by rw [h3]), if_pos h4,
      if_pos (by rw [h5])]
  · intro st3 inp h1 h2 h3
    unfold reconnectMQTT
    rw [if_neg h1, if_pos (by rw [h2]), if_neg (by rw [h3]; simp)]

/-- C9 witness: two consecutive failed due attempts from the boot state,
at times 5000 and 15000 ms, leave the interval at 20000 ms =
min(5000 * 2^2, 3600000); the success clauses are discharged on concrete
states. -/
theorem C9_witness :
    mqttInitialState.backoffInterval = 5000 ∧
    (runMQTT mqttInitialState
      [⟨1, false, true, 5000, false⟩, ⟨1, false, true, 15000, false⟩]).backoffInterval =
      min (5000 * 2 ^ 2) MQTT_BACKOFF_MAX ∧
    (reconnectMQTT ⟨0, 7777, false⟩ ⟨1, false, true, 8000, true⟩).backoffInterval = 5000 ∧
    (reconnectMQTT ⟨0, 7777, false⟩ ⟨1, true, false, 8000, false⟩).backoffInterval = 5000 := by
  have hfail : ConsecutiveFailures mqttInitialState
      [⟨1, false, true, 5000, false⟩, ⟨1, false, true, 15000, false⟩] := by
    apply ConsecutiveFailures.cons
    · refine ⟨by decide, rfl, rfl, by decide, rfl⟩
    · apply ConsecutiveFailures.cons
      · refine ⟨by decide, rfl, rfl, by decide, rfl⟩
      · exact ConsecutiveFailures.nil _
  have h := C9_mqtt_backoff mqttInitialState
    [⟨1, false, true, 5000, false⟩, ⟨1, false, true, 15000, false⟩] rfl hfail
  exact ⟨h.1, h.2.1, h.2.2.1 ⟨0, 7777, false⟩ ⟨1, false, true, 8000, true⟩
      (by decide) rfl rfl (by decide) rfl,
    h.2.2.2 ⟨0, 7777, false⟩ ⟨1, true, false, 8000, false⟩ (by decide) rfl rfl⟩

/-- C10: when the MQTT client is not connected, publishing a matched spell
is dropped entirely (the publish stream is unchanged, nothing is queued,
and publishSpell touches no other state); when connected, the raw spell
name is published to the configured topic. -/
theorem C10_publish_drop (connected : Bool) (topic spellName : String)
    (outbox : List (String × String)) :
    (connected = false → publishSpell connected topic spellName outbox = outbox) ∧
    (connected = true →
      publishSpell connected topic spellName outbox = outbox ++ [(topic, spellName)]) := by
  constructor
  · intro h
    unfold publishSpell
    rw [h]
    rfl
  · intro h
    unfold publishSpell
    rw [h]
    rfl

/-- C10 witness: both hypotheses discharged on concrete values. -/
theorem C10_witness :
    publishSpell false "home/wand/spell" "Ignite" [] = [] ∧
    publishSpell true "home/wand/spell" "Ignite" [] = [("home/wand/spell", "Ignite")] := by
  exact ⟨(C10_publish_drop false "home/wand/spell" "Ignite" []).1 rfl,
    (C10_publish_drop true "home/wand/spell" "Ignite" []).2 rfl⟩

end GlyphReader
